import Mathlib

/-!
# Verification of the `minevent` event-dispatch library

Shallow embedding of `src/minevent/conditions.py`, `src/minevent/handlers.py`
and `src/minevent/manager.py`, together with theorems settling the spec claims.

Python `dict`/`defaultdict` objects preserve insertion order, so the registry
is modelled as an association list `List (String × List H)`; a `defaultdict`
read of a missing key inserts `(key, [])` at the end, which the embedding
keeps because several claims depend on this side effect.
-/

namespace Minevent

/-- Embeds `PeriodicCondition` (conditions.py, lines 125-145): `_freq` and
`_step` are Python ints, `_step` starts at 0. Python `%` with a positive
modulus agrees with `Int.emod`; `freq = 0` raises `ZeroDivisionError` in
Python and is outside every claim's scope. -/
structure PeriodicCondition where
  freq : Int
  step : Int
deriving DecidableEq, Repr

/-- `PeriodicCondition.__init__` (conditions.py, lines 125-127). -/
def PeriodicCondition.new (freq : Int) : PeriodicCondition :=
  { freq := freq, step := 0 }

/-- `PeriodicCondition.evaluate` (conditions.py, lines 142-145): returns
`self._step % self._freq == 0` computed before the increment, then
increments `_step`. -/
def PeriodicCondition.evaluate (c : PeriodicCondition) : Bool × PeriodicCondition :=
  ((c.step % c.freq == 0), { c with step := c.step + 1 })

/-- `PeriodicCondition.equal` (conditions.py, lines 137-140): compares only
`freq`; both arguments here are already periodic conditions, matching the
`isinstance` branch of the source. -/
def PeriodicCondition.equal (c other : PeriodicCondition) : Bool :=
  c.freq == other.freq

/-- The state advance performed by one `evaluate` call. -/
def PeriodicCondition.advance (c : PeriodicCondition) : PeriodicCondition :=
  c.evaluate.2

/-- The list of booleans returned by `n` successive `evaluate` calls. -/
def PeriodicCondition.evalSeq : PeriodicCondition → Nat → List Bool
  | _, 0 => []
  | c, n + 1 =>
    let r := c.evaluate
    r.1 :: r.2.evalSeq n

theorem PeriodicCondition.evalSeq_eq (c : PeriodicCondition) (n : Nat) :
    c.evalSeq n = (List.range n).map (fun k : Nat => ((c.step + (k : Int)) % c.freq == 0)) := by
  induction n generalizing c with
  | zero => rfl
  | succ n ih =>
    rw [show c.evalSeq (n + 1)
        = (c.step % c.freq == 0)
          :: PeriodicCondition.evalSeq { c with step := c.step + 1 } n from rfl]
    rw [ih, List.range_succ_eq_map, List.map_cons, List.map_map]
    refine List.cons_eq_cons.mpr ⟨by norm_num, ?_⟩
    refine List.map_congr_left fun k _ => ?_
    have h : (c.step + 1 + (k : Int)) = (c.step + ((Nat.succ k : Nat) : Int)) := by
      push_cast; ring
    simp only [Function.comp_apply, h]

theorem PeriodicCondition.advance_iterate_freq (c : PeriodicCondition) (n : Nat) :
    (PeriodicCondition.advance^[n] c).freq = c.freq := by
  induction n generalizing c with
  | zero => rfl
  | succ n ih => rw [Function.iterate_succ_apply]; exact ih _

/-- C3: for every integer frequency `F ≥ 1`, a fresh periodic condition
evaluated `N` times returns `true` exactly at the 0-based call indices
divisible by `F` and `false` elsewhere; moreover every single `evaluate`
call returns `stepCount mod F == 0` for the pre-call `stepCount` and then
increments `stepCount` by one. -/
theorem claim_C3_periodic_condition_sequence (F : Int) (hF : 1 ≤ F) (N : Nat) :
    (PeriodicCondition.new F).evalSeq N
        = (List.range N).map (fun k : Nat => decide (F ∣ (k : Int)))
      ∧ ∀ c : PeriodicCondition,
          c.evaluate = ((c.step % c.freq == 0), { freq := c.freq, step := c.step + 1 }) := by
  refine ⟨?_, fun c => rfl⟩
  rw [PeriodicCondition.evalSeq_eq]
  refine List.map_congr_left fun k _ => ?_
  show (((PeriodicCondition.new F).step + (k : Int)) % (PeriodicCondition.new F).freq == 0)
      = decide (F ∣ (k : Int))
  rw [show (PeriodicCondition.new F).step = 0 from rfl,
    show (PeriodicCondition.new F).freq = F from rfl, zero_add]
  refine Bool.eq_iff_iff.mpr ?_
  simp only [beq_iff_eq, decide_eq_true_eq]
  exact (Int.dvd_iff_emod_eq_zero (a := F) (b := (k : Int))).symm

theorem claim_C3_witness :
    (1 : Int) ≤ 3
      ∧ ((PeriodicCondition.new 3).evalSeq 7
            = (List.range 7).map (fun k : Nat => decide ((3 : Int) ∣ (k : Int)))
          ∧ ∀ c : PeriodicCondition,
              c.evaluate = ((c.step % c.freq == 0), { freq := c.freq, step := c.step + 1 })) :=
  ⟨by norm_num, claim_C3_periodic_condition_sequence 3 (by norm_num) 7⟩

/-- C8: equality of periodic conditions depends only on `freq`: it is `true`
iff the two frequencies agree, and advancing either condition by any number
of `evaluate` calls never changes the comparison's outcome. -/
theorem claim_C8_periodic_equal_only_freq (c1 c2 : PeriodicCondition) (n m : Nat) :
    (c1.equal c2 = true ↔ c1.freq = c2.freq)
      ∧ (PeriodicCondition.advance^[n] c1).equal (PeriodicCondition.advance^[m] c2)
          = c1.equal c2 := by
  refine ⟨by simp [PeriodicCondition.equal], ?_⟩
  simp [PeriodicCondition.equal, PeriodicCondition.advance_iterate_freq]

/-- Python values that can occupy the `handler` argument slot of an event
handler: function objects (identified by an id) are callable, other values
are not. -/
inductive PyValue where
  | func (id : Nat)
  | int (n : Int)
  | str (s : String)
deriving DecidableEq, Repr

/-- Python's `callable` predicate on the modelled values. -/
def PyValue.isCallable : PyValue → Bool
  | .func _ => true
  | _ => false

/-- The `TypeError` raised by handler construction. -/
inductive PyError where
  | typeError (msg : String)
deriving DecidableEq, Repr

/-- Embeds the fields of `BaseEventHandlerWithArguments` (handlers.py,
lines 122-132). -/
structure BaseEventHandlerWithArguments where
  handler : PyValue
  handler_args : List PyValue
  handler_kwargs : List (String × PyValue)
deriving DecidableEq, Repr

/-- `BaseEventHandlerWithArguments.__init__` (handlers.py, lines 122-132):
raises `TypeError` when `handler` is not callable, otherwise stores the
handler with its captured positional and keyword arguments. -/
def BaseEventHandlerWithArguments.init (handler : PyValue)
    (handler_args : List PyValue) (handler_kwargs : List (String × PyValue)) :
    Except PyError BaseEventHandlerWithArguments :=
  if !handler.isCallable then
    .error (.typeError "handler is not callable")
  else
    .ok { handler := handler, handler_args := handler_args, handler_kwargs := handler_kwargs }

/-- Python objects that can occupy the `condition` argument slot of
`ConditionalEventHandler`: a real condition (the built-in periodic one), or
any other Python value such as the integer `123`, which has no `evaluate`
method. -/
inductive PyCondition where
  | periodic (c : PeriodicCondition)
  | other (v : PyValue)
deriving DecidableEq, Repr

/-- Whether the object is a valid evaluable condition (implements the
`BaseCondition` capability). -/
def PyCondition.isEvaluable : PyCondition → Bool
  | .periodic _ => true
  | .other _ => false

/-- Embeds the fields of `ConditionalEventHandler` (handlers.py,
lines 191-265) at the concrete Python-value instantiation. -/
structure PyConditionalEventHandler where
  handler : PyValue
  handler_args : List PyValue
  handler_kwargs : List (String × PyValue)
  condition : PyCondition
deriving DecidableEq, Repr

/-- `ConditionalEventHandler.__init__` (handlers.py, lines 225-233),
translated from the source: it calls the base initializer, which validates
only that `handler` is callable, and then stores `condition` with no
validity check of its own. -/
def PyConditionalEventHandler.init (handler : PyValue) (condition : PyCondition)
    (handler_args : List PyValue) (handler_kwargs : List (String × PyValue)) :
    Except PyError PyConditionalEventHandler :=
  (BaseEventHandlerWithArguments.init handler handler_args handler_kwargs).map
    (fun b =>
      { handler := b.handler, handler_args := b.handler_args,
        handler_kwargs := b.handler_kwargs, condition := condition })

/-- C4 (code bug): the source constructor accepts a non-evaluable condition
without raising. Constructing a conditional handler from a callable payload
and the integer `123` succeeds, contradicting the spec and the repository's
own test `test_conditional_event_handler_non_callable_condition`, which
expects construction to raise a `TypeError`. -/
theorem claim_C4_init_accepts_invalid_condition :
    (PyCondition.other (.int 123)).isEvaluable = false
      ∧ PyConditionalEventHandler.init (.func 0) (PyCondition.other (.int 123)) []
            []
          = .ok { handler := .func 0, handler_args := [], handler_kwargs := [],
                  condition := PyCondition.other (.int 123) } :=
  ⟨rfl, rfl⟩

/-- A conditional event handler over an arbitrary payload-value type `α` and
condition-state type `σ` (the condition's `evaluate` method is a parameter,
matching the dynamic dispatch of `self._condition.evaluate()`). -/
structure ConditionalEventHandler (α σ : Type) where
  handler : α
  handler_args : List α
  handler_kwargs : List (String × α)
  condition : σ

/-- One payload invocation: the function called together with the positional
and keyword arguments it received. -/
structure PyCall (α : Type) where
  func : α
  args : List α
  kwargs : List (String × α)
deriving DecidableEq, Repr

/-- `ConditionalEventHandler.handle` (handlers.py, lines 263-265), with the
base-class `handle` (lines 161-162) inlined: evaluate the condition once;
when it returns true, invoke the payload with the captured arguments,
otherwise do nothing further. The returned `Option (PyCall α)` records the
payload invocation, if any. -/
def ConditionalEventHandler.handle {α σ : Type} (evaluate : σ → Bool × σ)
    (h : ConditionalEventHandler α σ) :
    ConditionalEventHandler α σ × Option (PyCall α) :=
  let r := evaluate h.condition
  ({ h with condition := r.2 },
    if r.1 then
      some { func := h.handler, args := h.handler_args, kwargs := h.handler_kwargs }
    else none)

/-- C7: one `handle()` call advances the stored condition by exactly one
`evaluate` step whether or not the payload runs; when the condition returns
true the payload is invoked with exactly the captured positional and keyword
arguments, and when it returns false no invocation happens and nothing else
changes. -/
theorem claim_C7_conditional_handle {α σ : Type} (evaluate : σ → Bool × σ)
    (h : ConditionalEventHandler α σ) :
    ((h.handle evaluate).1.condition = (evaluate h.condition).2
        ∧ (h.handle evaluate).1.handler = h.handler
        ∧ (h.handle evaluate).1.handler_args = h.handler_args
        ∧ (h.handle evaluate).1.handler_kwargs = h.handler_kwargs)
      ∧ (h.handle evaluate).2
          = (if (evaluate h.condition).1 then
              some { func := h.handler, args := h.handler_args,
                     kwargs := h.handler_kwargs }
            else none) :=
  ⟨⟨rfl, rfl, rfl, rfl⟩, rfl⟩

/-- Embeds `EventManager` (manager.py, lines 17-255) over an arbitrary
handler type `H`. `_event_handlers` is a `defaultdict(list)`; Python dicts
preserve insertion order, so the registry is an association list whose keys
are unique by construction. -/
structure EventManager (H : Type) where
  event_handlers : List (String × List H)
  last_fired_event : Option String
deriving DecidableEq, Repr

/-- `EventManager.__init__` (manager.py, lines 37-42): empty registry, no
last fired event. -/
def EventManager.new (H : Type) : EventManager H :=
  { event_handlers := [], last_fired_event := none }

/-- A plain dict read (`event in self._event_handlers`,
`self._event_handlers[event]` on a present key): no side effect. -/
def lookupEvent {H : Type} (reg : List (String × List H)) (e : String) :
    Option (List H) :=
  (reg.find? (fun p => p.1 == e)).map Prod.snd

/-- A `defaultdict` read of key `e`: returns the value and the possibly
extended registry — a missing key is inserted at the end, bound to `[]`. -/
def defaultGet {H : Type} (reg : List (String × List H)) (e : String) :
    List (String × List H) × List H :=
  match lookupEvent reg e with
  | some hs => (reg, hs)
  | none => (reg ++ [(e, [])], [])

/-- `self._event_handlers[event].append(handler)`: appends to the key's list
in place, inserting the key at the end of the dict when it is missing. -/
def appendToKey {H : Type} : List (String × List H) → String → H → List (String × List H)
  | [], e, h => [(e, [h])]
  | (k, v) :: t, e, h =>
    if k = e then (k, v ++ [h]) :: t else (k, v) :: appendToKey t e h

/-- `self._event_handlers[event] = new_event_handlers`: replaces the value of
a present key, keeping its position. -/
def setKey {H : Type} : List (String × List H) → String → List H → List (String × List H)
  | [], _, _ => []
  | (k, v) :: t, e, hs =>
    if k = e then (k, hs) :: t else (k, v) :: setKey t e hs

/-- `del self._event_handlers[event]`: removes the key. -/
def eraseKey {H : Type} : List (String × List H) → String → List (String × List H)
  | [], _ => []
  | (k, v) :: t, e =>
    if k = e then t else (k, v) :: eraseKey t e

/-- `EventManager.add_event_handler` (manager.py, lines 66-90). -/
def EventManager.addEventHandler {H : Type} (m : EventManager H) (event : String)
    (h : H) : EventManager H :=
  { m with event_handlers := appendToKey m.event_handlers event h }

/-- The `for event_handler in ...: event_handler.handle()` loop of
`fire_event`: invokes `handle` on each handler in order, stopping at the
first raised error. Returns the handlers actually invoked, in order, and the
propagated error, if any. -/
def runHandlers {H ε : Type} (handle : H → Except ε Unit) :
    List H → List H × Option ε
  | [] => ([], none)
  | h :: t =>
    match handle h with
    | .error e => ([h], some e)
    | .ok _ =>
      let r := runHandlers handle t
      (h :: r.1, r.2)

/-- `EventManager.fire_event` (manager.py, lines 92-118): records the event
as `_last_fired_event` first, then iterates `self._event_handlers[event]` —
a `defaultdict` read that inserts `(event, [])` when the key is missing —
calling `handle()` on each entry in registration order and propagating the
first error. Returns the new manager, the invoked handlers, and the error. -/
def EventManager.fireEvent {H ε : Type} (handle : H → Except ε Unit)
    (m : EventManager H) (event : String) :
    EventManager H × List H × Option ε :=
  let d := defaultGet m.event_handlers event
  let r := runHandlers handle d.2
  ({ event_handlers := d.1, last_fired_event := some event }, r.1, r.2)

/-- The all-events scan of `has_event_handler` (the branch taken when
`event` is falsy): looks for a handler `equal` to `eh` in every list. -/
def scanAllEvents {H : Type} (equal : H → H → Bool) (reg : List (String × List H))
    (eh : H) : Bool :=
  reg.any (fun p => p.2.any (fun h => equal eh h))

/-- `EventManager.has_event_handler` (manager.py, lines 120-166). The source
selects the scanned keys with `events = [event] if event else
self._event_handlers`, so `None` and the empty string (both falsy) scan
every registered event without side effect, while an explicit truthy event
name triggers a `defaultdict` read of that key, inserting `(event, [])` when
it is missing. -/
def EventManager.hasEventHandler {H : Type} (equal : H → H → Bool)
    (m : EventManager H) (eh : H) : Option String → Bool × EventManager H
  | none => (scanAllEvents equal m.event_handlers eh, m)
  | some e =>
    if e = "" then (scanAllEvents equal m.event_handlers eh, m)
    else
      let d := defaultGet m.event_handlers e
      (d.2.any (fun h => equal eh h), { m with event_handlers := d.1 })

/-- The two `RuntimeError`s raised by `remove_event_handler`, distinguished
by their messages: `'{event}' event does not exist` versus `... is not found
among registered event handlers for '{event}' event`. -/
inductive RemoveError where
  | unknownEvent (event : String)
  | handlerNotFound (event : String)
deriving DecidableEq, Repr

/-- `EventManager.remove_event_handler` (manager.py, lines 168-220): fails
on a missing key; otherwise keeps only the handlers not `equal` to `eh`,
failing when nothing was removed, rewriting the key's list when it stays
nonempty, and deleting the key when it becomes empty. -/
def EventManager.removeEventHandler {H : Type} (equal : H → H → Bool)
    (m : EventManager H) (event : String) (eh : H) :
    Except RemoveError (EventManager H) :=
  match lookupEvent m.event_handlers event with
  | none => .error (.unknownEvent event)
  | some hs =>
    let kept := hs.filter (fun h => !(equal eh h))
    if kept.length = hs.length then .error (.handlerNotFound event)
    else if 0 < kept.length then
      .ok { m with event_handlers := setKey m.event_handlers event kept }
    else
      .ok { m with event_handlers := eraseKey m.event_handlers event }

/-- `EventManager.reset` (manager.py, lines 222-255). -/
def EventManager.reset {H : Type} (_ : EventManager H) : EventManager H :=
  { event_handlers := [], last_fired_event := none }

theorem lookupEvent_cons {H : Type} (k : String) (v : List H) (t : List (String × List H))
    (e : String) :
    lookupEvent ((k, v) :: t) e = if k = e then some v else lookupEvent t e := by
  by_cases h : k = e
  · subst h; simp [lookupEvent, List.find?]
  · have hb : (k == e) = false := beq_eq_false_iff_ne.mpr h
    simp [lookupEvent, List.find?, hb, h]

theorem lookupEvent_eq_none_of_not_mem {H : Type} (reg : List (String × List H))
    (e : String) (hnm : e ∉ reg.map Prod.fst) : lookupEvent reg e = none := by
  induction reg with
  | nil => rfl
  | cons p t ih =>
    obtain ⟨k, v⟩ := p
    simp only [List.map_cons, List.mem_cons] at hnm
    push_neg at hnm
    rw [lookupEvent_cons, if_neg (Ne.symm hnm.1)]
    exact ih hnm.2

theorem lookupEvent_append_missing {H : Type} (reg : List (String × List H))
    (e : String) (hmiss : lookupEvent reg e = none) :
    lookupEvent (reg ++ [(e, ([] : List H))]) e = some [] := by
  induction reg with
  | nil => simp [lookupEvent, List.find?]
  | cons p t ih =>
    obtain ⟨k, v⟩ := p
    rw [lookupEvent_cons] at hmiss
    by_cases hk : k = e
    · simp [hk] at hmiss
    · rw [List.cons_append, lookupEvent_cons, if_neg hk]
      exact ih (by simpa [hk] using hmiss)

theorem lookupEvent_appendToKey_self {H : Type} (reg : List (String × List H))
    (e : String) (h : H) :
    lookupEvent (appendToKey reg e h) e = some ((lookupEvent reg e).getD [] ++ [h]) := by
  induction reg with
  | nil => simp [appendToKey, lookupEvent, List.find?]
  | cons p t ih =>
    obtain ⟨k, v⟩ := p
    by_cases hk : k = e
    · subst hk; simp [appendToKey, lookupEvent_cons]
    · simp [appendToKey, hk, lookupEvent_cons, ih]

theorem lookupEvent_appendToKey_ne {H : Type} (reg : List (String × List H))
    (e e' : String) (h : H) (hne : e' ≠ e) :
    lookupEvent (appendToKey reg e h) e' = lookupEvent reg e' := by
  induction reg with
  | nil =>
    rw [appendToKey, lookupEvent_cons, if_neg (Ne.symm hne)]
  | cons p t ih =>
    obtain ⟨k, v⟩ := p
    by_cases hk : k = e
    · subst hk
      rw [appendToKey, if_pos rfl, lookupEvent_cons, lookupEvent_cons,
        if_neg (Ne.symm hne), if_neg (Ne.symm hne)]
    · rw [appendToKey, if_neg hk, lookupEvent_cons, lookupEvent_cons, ih]

theorem lookupEvent_setKey_self {H : Type} (reg : List (String × List H))
    (e : String) (hs v : List H) (hv : lookupEvent reg e = some v) :
    lookupEvent (setKey reg e hs) e = some hs := by
  induction reg with
  | nil => simp [lookupEvent, List.find?] at hv
  | cons p t ih =>
    obtain ⟨k, w⟩ := p
    by_cases hk : k = e
    · subst hk; simp [setKey, lookupEvent_cons]
    · rw [lookupEvent_cons, if_neg hk] at hv
      simp [setKey, hk, lookupEvent_cons, ih hv]

theorem lookupEvent_setKey_ne {H : Type} (reg : List (String × List H))
    (e e' : String) (hs : List H) (hne : e' ≠ e) :
    lookupEvent (setKey reg e hs) e' = lookupEvent reg e' := by
  induction reg with
  | nil => simp [setKey]
  | cons p t ih =>
    obtain ⟨k, w⟩ := p
    by_cases hk : k = e
    · subst hk
      rw [setKey, if_pos rfl, lookupEvent_cons, lookupEvent_cons,
        if_neg (Ne.symm hne), if_neg (Ne.symm hne)]
    · rw [setKey, if_neg hk, lookupEvent_cons, lookupEvent_cons, ih]

theorem lookupEvent_eraseKey_self {H : Type} (reg : List (String × List H))
    (e : String) (huniq : (reg.map Prod.fst).Nodup) :
    lookupEvent (eraseKey reg e) e = none := by
  induction reg with
  | nil => rfl
  | cons p t ih =>
    obtain ⟨k, v⟩ := p
    simp only [List.map_cons, List.nodup_cons] at huniq
    by_cases hk : k = e
    · subst hk
      rw [eraseKey, if_pos rfl]
      exact lookupEvent_eq_none_of_not_mem t k huniq.1
    · rw [eraseKey, if_neg hk, lookupEvent_cons, if_neg hk]
      exact ih huniq.2

theorem lookupEvent_eraseKey_ne {H : Type} (reg : List (String × List H))
    (e e' : String) (hne : e' ≠ e) :
    lookupEvent (eraseKey reg e) e' = lookupEvent reg e' := by
  induction reg with
  | nil => rfl
  | cons p t ih =>
    obtain ⟨k, v⟩ := p
    by_cases hk : k = e
    · subst hk
      rw [eraseKey, if_pos rfl, lookupEvent_cons,
        if_neg (fun hc : k = e' => hne hc.symm)]
    · rw [eraseKey, if_neg hk, lookupEvent_cons, lookupEvent_cons, ih]

theorem runHandlers_ok {H ε : Type} (handle : H → Except ε Unit) (l : List H)
    (hok : ∀ h ∈ l, handle h = .ok ()) :
    runHandlers handle l = (l, none) := by
  induction l with
  | nil => rfl
  | cons h t ih =>
    have h1 := hok h (List.mem_cons_self h t)
    have h2 := ih fun x hx => hok x (List.mem_cons_of_mem h hx)
    simp [runHandlers, h1, h2]

theorem runHandlers_append_ok {H ε : Type} (handle : H → Except ε Unit)
    (pre rest : List H) (hpre : ∀ h ∈ pre, handle h = .ok ()) :
    runHandlers handle (pre ++ rest)
      = (pre ++ (runHandlers handle rest).1, (runHandlers handle rest).2) := by
  induction pre with
  | nil => simp
  | cons h t ih =>
    have h1 := hpre h (List.mem_cons_self h t)
    have h2 := ih fun x hx => hpre x (List.mem_cons_of_mem h hx)
    simp [runHandlers, h1, h2]

theorem runHandlers_cons_error {H ε : Type} (handle : H → Except ε Unit)
    (h : H) (err : ε) (t : List H) (he : handle h = .error err) :
    runHandlers handle (h :: t) = ([h], some err) := by
  simp [runHandlers, he]

theorem defaultGet_snd {H : Type} (reg : List (String × List H)) (e : String) :
    (defaultGet reg e).2 = (lookupEvent reg e).getD [] := by
  unfold defaultGet
  cases lookupEvent reg e <;> rfl

theorem defaultGet_fst_some {H : Type} (reg : List (String × List H)) (e : String)
    (v : List H) (hv : lookupEvent reg e = some v) : (defaultGet reg e).1 = reg := by
  unfold defaultGet; rw [hv]

theorem defaultGet_fst_none {H : Type} (reg : List (String × List H)) (e : String)
    (hmiss : lookupEvent reg e = none) :
    (defaultGet reg e).1 = reg ++ [(e, [])] := by
  unfold defaultGet; rw [hmiss]

theorem fireEvent_def {H ε : Type} (handle : H → Except ε Unit) (m : EventManager H)
    (e : String) :
    m.fireEvent handle e
      = ({ event_handlers := (defaultGet m.event_handlers e).1,
           last_fired_event := some e },
         (runHandlers handle (defaultGet m.event_handlers e).2).1,
         (runHandlers handle (defaultGet m.event_handlers e).2).2) := rfl

theorem filter_length_lt_of_mem_not {H : Type} (p : H → Bool) (l : List H) (x : H)
    (hx : x ∈ l) (hpx : p x = false) : (l.filter p).length < l.length := by
  induction l with
  | nil => cases hx
  | cons h t ih =>
    rcases List.mem_cons.mp hx with hxh | hxt
    · subst hxh
      rw [List.filter_cons, hpx]
      exact Nat.lt_succ_of_le (List.length_filter_le p t)
    · rw [List.filter_cons]
      cases hp : p h
      · exact Nat.lt_succ_of_lt (ih hxt)
      · simpa using Nat.succ_lt_succ (ih hxt)

/-- C1: `fire_event(e)` records `e` as the last fired event, invokes
`handle()` on exactly the handlers registered for `e`, in registration
order (here in the error-free setting; the error path is claim C2), and a
handler added twice to the same event is invoked exactly twice by one
`fire_event` call. -/
theorem claim_C1_fireEvent_order {H ε : Type} (handle : H → Except ε Unit)
    (m : EventManager H) (e : String) (hok : ∀ h, handle h = .ok ()) :
    ((m.fireEvent handle e).1.last_fired_event = some e
        ∧ (m.fireEvent handle e).2.1 = (lookupEvent m.event_handlers e).getD []
        ∧ (m.fireEvent handle e).2.2 = none)
      ∧ ∀ (m0 : EventManager H) (h0 : H),
          lookupEvent m0.event_handlers e = none →
          (((m0.addEventHandler e h0).addEventHandler e h0).fireEvent handle e).2.1
            = [h0, h0] := by
  have hrun : ∀ l : List H, runHandlers handle l = (l, none) :=
    fun l => runHandlers_ok handle l (fun h _ => hok h)
  constructor
  · rw [fireEvent_def]
    exact ⟨rfl, by rw [defaultGet_snd, hrun], by rw [defaultGet_snd, hrun]⟩
  · intro m0 h0 hmiss
    have h1 : lookupEvent (appendToKey m0.event_handlers e h0) e = some [h0] := by
      rw [lookupEvent_appendToKey_self, hmiss]; rfl
    have h2 : lookupEvent (appendToKey (appendToKey m0.event_handlers e h0) e h0) e
        = some [h0, h0] := by
      rw [lookupEvent_appendToKey_self, h1]; rfl
    rw [fireEvent_def, defaultGet_snd]
    show (runHandlers handle ((lookupEvent
      (appendToKey (appendToKey m0.event_handlers e h0) e h0) e).getD [])).1 = [h0, h0]
    rw [h2]
    rw [show (some [h0, h0]).getD [] = [h0, h0] from rfl, hrun]

theorem claim_C1_witness :
    (∀ h : Nat, (fun _ : Nat => (Except.ok () : Except Unit Unit)) h = .ok ())
      ∧ (EventManager.fireEvent (fun _ : Nat => (Except.ok () : Except Unit Unit))
            { event_handlers := [("e", [1, 2])], last_fired_event := none } "e").2.1
          = [1, 2] := by
  refine ⟨fun h => rfl, ?_⟩
  have h := claim_C1_fireEvent_order (fun _ : Nat => (Except.ok () : Except Unit Unit))
    { event_handlers := [("e", [1, 2])], last_fired_event := none } "e" (fun _ => rfl)
  exact h.1.2.1.trans rfl

/-- C2: when the handler at some position of `e`'s list raises and the
handlers before it succeed, the error propagates to the caller of
`fire_event`, the handlers after the failing one are not invoked, the
registry is unchanged, and the last fired event is still `e`. -/
theorem claim_C2_fireEvent_fail_fast {H ε : Type} (handle : H → Except ε Unit)
    (m : EventManager H) (e : String) (pre post : List H) (bad : H) (err : ε)
    (hreg : lookupEvent m.event_handlers e = some (pre ++ bad :: post))
    (hpre : ∀ h ∈ pre, handle h = .ok ())
    (hbad : handle bad = .error err) :
    (m.fireEvent handle e).2.2 = some err
      ∧ (m.fireEvent handle e).2.1 = pre ++ [bad]
      ∧ (m.fireEvent handle e).1.event_handlers = m.event_handlers
      ∧ (m.fireEvent handle e).1.last_fired_event = some e := by
  have hrun : runHandlers handle (pre ++ bad :: post) = (pre ++ [bad], some err) := by
    rw [runHandlers_append_ok handle pre (bad :: post) hpre,
      runHandlers_cons_error handle bad err post hbad]
  rw [fireEvent_def, defaultGet_snd, hreg,
    show (some (pre ++ bad :: post)).getD [] = pre ++ bad :: post from rfl, hrun]
  exact ⟨rfl, rfl, defaultGet_fst_some m.event_handlers e _ hreg, rfl⟩

theorem claim_C2_witness :
    (lookupEvent ([("e", [1, 5, 2])] : List (String × List Nat)) "e" = some ([1] ++ 5 :: [2]))
      ∧ (∀ h ∈ [1], (fun n : Nat => if n = 5 then (Except.error "boom" : Except String Unit)
            else Except.ok ()) h = .ok ())
      ∧ (EventManager.fireEvent
            (fun n : Nat => if n = 5 then (Except.error "boom" : Except String Unit)
              else Except.ok ())
            { event_handlers := [("e", [1, 5, 2])], last_fired_event := none } "e").2.2
          = some "boom" := by
  have hpre1 : ∀ h ∈ [1], (fun n : Nat => if n = 5 then
      (Except.error "boom" : Except String Unit) else Except.ok ()) h = .ok () := by
    intro h hh
    simp only [List.mem_singleton] at hh
    subst hh
    rfl
  refine ⟨rfl, hpre1, ?_⟩
  exact (claim_C2_fireEvent_fail_fast
    (fun n : Nat => if n = 5 then (Except.error "boom" : Except String Unit)
      else Except.ok ())
    { event_handlers := [("e", [1, 5, 2])], last_fired_event := none } "e"
    [1] [2] 5 "boom" rfl hpre1 rfl).1

/-- C5: `remove_event_handler(e, h)` fails with the unknown-event error when
`e` has no registry entry, and with the distinct handler-not-found error
when `e` has an entry but no handler in it is `equal` to `h`; in both cases
the call raises before any mutation, so the returned value carries no new
manager state and the registry is unchanged. -/
theorem claim_C5_remove_errors {H : Type} (equal : H → H → Bool)
    (m : EventManager H) (e : String) (eh : H) :
    (lookupEvent m.event_handlers e = none →
        m.removeEventHandler equal e eh = .error (.unknownEvent e))
      ∧ (∀ hs, lookupEvent m.event_handlers e = some hs →
          (∀ h ∈ hs, equal eh h = false) →
          m.removeEventHandler equal e eh = .error (.handlerNotFound e))
      ∧ RemoveError.unknownEvent e ≠ RemoveError.handlerNotFound e := by
  refine ⟨?_, ?_, by intro hc; cases hc⟩
  · intro hmiss
    unfold EventManager.removeEventHandler
    rw [hmiss]
  · intro hs hreg hnone
    unfold EventManager.removeEventHandler
    rw [hreg]
    have hkeep : hs.filter (fun h => !(equal eh h)) = hs :=
      List.filter_eq_self.mpr (fun h hh => by rw [hnone h hh]; rfl)
    simp [hkeep]

theorem claim_C5_witness :
    (lookupEvent (([] : List (String × List Nat))) "ghost" = none
        ∧ EventManager.removeEventHandler (fun a b => a == b) (EventManager.new Nat)
            "ghost" 7 = .error (.unknownEvent "ghost"))
      ∧ (EventManager.removeEventHandler (fun a b => a == b)
            { event_handlers := [("e", [1, 2])], last_fired_event := none } "e" 7
          = .error (.handlerNotFound "e")) := by
  constructor
  · exact ⟨rfl, (claim_C5_remove_errors (fun a b => a == b)
      (EventManager.new Nat) "ghost" 7).1 rfl⟩
  · refine (claim_C5_remove_errors (fun a b => a == b)
      { event_handlers := [("e", [1, 2])], last_fired_event := none } "e" 7).2.1
      [1, 2] rfl ?_
    decide

/-- C6: when `remove_event_handler(e, h)` succeeds it removes every entry of
`e`'s list that is `equal` to `h` (the kept entries are exactly the filtered
list, in their original order); when the list is emptied, the key `e` is
deleted from the registry, so `e` looks never-registered afterwards; all
other events and the last fired event are untouched. The `Nodup` hypothesis
is the Python dict invariant that registry keys are unique. -/
theorem claim_C6_remove_success {H : Type} (equal : H → H → Bool)
    (m : EventManager H) (e : String) (eh : H) (hs : List H)
    (hreg : lookupEvent m.event_handlers e = some hs)
    (huniq : (m.event_handlers.map Prod.fst).Nodup)
    (hmatch : ∃ h ∈ hs, equal eh h = true) :
    ∃ m' : EventManager H, m.removeEventHandler equal e eh = .ok m'
      ∧ m'.last_fired_event = m.last_fired_event
      ∧ (∀ e', e' ≠ e →
          lookupEvent m'.event_handlers e' = lookupEvent m.event_handlers e')
      ∧ ((hs.filter fun h => !(equal eh h)) = [] →
            lookupEvent m'.event_handlers e = none
              ∧ m'.event_handlers = eraseKey m.event_handlers e)
      ∧ ((hs.filter fun h => !(equal eh h)) ≠ [] →
            lookupEvent m'.event_handlers e
              = some (hs.filter fun h => !(equal eh h))) := by
  obtain ⟨x, hx, hxeq⟩ := hmatch
  have hlt : (hs.filter fun h => !(equal eh h)).length < hs.length :=
    filter_length_lt_of_mem_not _ hs x hx (by rw [hxeq]; rfl)
  have hne : ¬((hs.filter fun h => !(equal eh h)).length = hs.length) :=
    Nat.ne_of_lt hlt
  unfold EventManager.removeEventHandler
  rw [hreg]
  simp only [if_neg hne]
  by_cases hempty : (hs.filter fun h => !(equal eh h)) = []
  · rw [hempty]
    simp only [List.length_nil, if_neg (lt_irrefl 0)]
    refine ⟨_, rfl, rfl, ?_, ?_, ?_⟩
    · intro e' hne'
      exact lookupEvent_eraseKey_ne m.event_handlers e e' hne'
    · exact fun _ => ⟨lookupEvent_eraseKey_self m.event_handlers e huniq, rfl⟩
    · exact fun hc => absurd rfl hc
  · have hpos : 0 < (hs.filter fun h => !(equal eh h)).length :=
      List.length_pos.mpr hempty
    simp only [if_pos hpos]
    refine ⟨_, rfl, rfl, ?_, ?_, ?_⟩
    · intro e' hne'
      exact lookupEvent_setKey_ne m.event_handlers e e' _ hne'
    · exact fun hc => absurd hc hempty
    · exact fun _ => lookupEvent_setKey_self m.event_handlers e _ hs hreg

theorem claim_C6_witness :
    ∃ m' : EventManager Nat,
      EventManager.removeEventHandler (fun a b => a == b)
          { event_handlers := [("e", [1, 2, 1]), ("f", [3])],
            last_fired_event := none } "e" 1 = .ok m'
        ∧ m'.last_fired_event
            = ({ event_handlers := [("e", [1, 2, 1]), ("f", [3])],
                 last_fired_event := none } : EventManager Nat).last_fired_event
        ∧ (∀ e', e' ≠ "e" →
            lookupEvent m'.event_handlers e'
              = lookupEvent [("e", [1, 2, 1]), ("f", [3])] e')
        ∧ (([1, 2, 1].filter fun h => !((1 : Nat) == h)) = [] →
              lookupEvent m'.event_handlers "e" = none
                ∧ m'.event_handlers = eraseKey [("e", [1, 2, 1]), ("f", [3])] "e")
        ∧ (([1, 2, 1].filter fun h => !((1 : Nat) == h)) ≠ [] →
              lookupEvent m'.event_handlers "e"
                = some ([1, 2, 1].filter fun h => !((1 : Nat) == h))) :=
  claim_C6_remove_success (fun a b => a == b)
    { event_handlers := [("e", [1, 2, 1]), ("f", [3])], last_fired_event := none }
    "e" 1 [1, 2, 1] rfl (by decide) ⟨1, by decide⟩

/-- C9 counterexample: firing an event with no registered handlers is not a
pure `lastFiredEvent` update, and the resulting empty entry is observable by
a subsequent operation. On a fresh manager, `fire_event("my_event")` extends
the registry with `("my_event", [])` (the defaultdict side effect of line
117), and afterwards `remove_event_handler("my_event", h)` fails with the
handler-not-found error, whereas on the untouched manager it fails with the
unknown-event error — so the fired-but-empty name is distinguishable from a
never-registered one. -/
theorem claim_C9_counterexample :
    (((EventManager.new Nat).fireEvent
          (fun _ : Nat => (Except.ok () : Except Unit Unit)) "my_event").1.event_handlers
        ≠ (EventManager.new Nat).event_handlers)
      ∧ EventManager.removeEventHandler (fun a b => a == b)
          ((EventManager.new Nat).fireEvent
            (fun _ : Nat => (Except.ok () : Except Unit Unit)) "my_event").1
          "my_event" 0
          = .error (.handlerNotFound "my_event")
      ∧ EventManager.removeEventHandler (fun a b => a == b) (EventManager.new Nat)
          "my_event" 0
          = .error (.unknownEvent "my_event") := by
  refine ⟨?_, rfl, rfl⟩
  intro hc
  simp [EventManager.fireEvent, EventManager.new, defaultGet, lookupEvent] at hc

/-- C9 (amended): `fire_event(e)` on an event name with no registered
handlers invokes no handler, raises no error, and sets `lastFiredEvent` to
`e`; its only other state change is the defaultdict side effect — when `e`
has no registry entry at all, an empty handler list for `e` is appended to
the registry (observable through `remove_event_handler`'s error kind, though
not through `has_event_handler`'s result). -/
theorem claim_C9_fireEvent_no_handlers {H ε : Type} (handle : H → Except ε Unit)
    (m : EventManager H) (e : String)
    (hno : lookupEvent m.event_handlers e = none
        ∨ lookupEvent m.event_handlers e = some []) :
    (m.fireEvent handle e).1.last_fired_event = some e
      ∧ (m.fireEvent handle e).2.1 = []
      ∧ (m.fireEvent handle e).2.2 = none
      ∧ ((lookupEvent m.event_handlers e = none →
            (m.fireEvent handle e).1.event_handlers = m.event_handlers ++ [(e, [])])
          ∧ (lookupEvent m.event_handlers e = some [] →
            (m.fireEvent handle e).1.event_handlers = m.event_handlers))
      ∧ (∀ (equal : H → H → Bool) (eh : H), e ≠ "" →
          ((m.fireEvent handle e).1.hasEventHandler equal eh (some e)).1 = false) := by
  have hsnd : (defaultGet m.event_handlers e).2 = [] := by
    rw [defaultGet_snd]
    rcases hno with hno | hno <;> rw [hno] <;> rfl
  have hlook : lookupEvent (m.fireEvent handle e).1.event_handlers e = some [] := by
    rw [fireEvent_def]
    rcases hno with hno | hno
    · rw [defaultGet_fst_none m.event_handlers e hno]
      exact lookupEvent_append_missing m.event_handlers e hno
    · rw [defaultGet_fst_some m.event_handlers e [] hno]
      exact hno
  refine ⟨rfl, ?_, ?_, ⟨?_, ?_⟩, ?_⟩
  · rw [fireEvent_def, hsnd]; rfl
  · rw [fireEvent_def, hsnd]; rfl
  · intro hmiss
    rw [fireEvent_def]
    exact defaultGet_fst_none m.event_handlers e hmiss
  · intro hsome
    rw [fireEvent_def]
    exact defaultGet_fst_some m.event_handlers e [] hsome
  · intro equal eh hne
    simp only [EventManager.hasEventHandler]
    rw [if_neg hne]
    have : (defaultGet (m.fireEvent handle e).1.event_handlers e).2 = [] := by
      rw [defaultGet_snd, hlook]; rfl
    rw [this]
    rfl

theorem claim_C9_amended_witness :
    (lookupEvent (([("x", [4])]) : List (String × List Nat)) "my_event" = none
        ∨ lookupEvent ([("x", [4])] : List (String × List Nat)) "my_event" = some [])
      ∧ (EventManager.fireEvent (fun _ : Nat => (Except.ok () : Except Unit Unit))
            { event_handlers := [("x", [4])], last_fired_event := none } "my_event").2.1
          = []
      ∧ (EventManager.fireEvent (fun _ : Nat => (Except.ok () : Except Unit Unit))
            { event_handlers := [("x", [4])], last_fired_event := none }
            "my_event").1.last_fired_event
          = some "my_event" := by
  have h := claim_C9_fireEvent_no_handlers
    (fun _ : Nat => (Except.ok () : Except Unit Unit))
    { event_handlers := [("x", [4])], last_fired_event := none } "my_event"
    (Or.inl rfl)
  exact ⟨Or.inl rfl, h.2.1, h.1⟩

/-- C10: with an explicit event name `e` that has no registry entry (event
names are non-empty strings per the data model; the source's truthiness test
`if event` makes the empty string behave like `None`), `has_event_handler`
returns false and, as a defaultdict side effect of line 163, inserts an
empty handler list for `e` at the end of the registry; consequently a
subsequent `remove_event_handler(e, h)` fails with the handler-not-found
error instead of the unknown-event error. -/
theorem claim_C10_hasEventHandler_inserts {H : Type} (equal : H → H → Bool)
    (m : EventManager H) (eh eh2 : H) (e : String) (hne : e ≠ "")
    (hmiss : lookupEvent m.event_handlers e = none) :
    (m.hasEventHandler equal eh (some e)).1 = false
      ∧ (m.hasEventHandler equal eh (some e)).2.event_handlers
          = m.event_handlers ++ [(e, [])]
      ∧ EventManager.removeEventHandler equal (m.hasEventHandler equal eh (some e)).2
          e eh2 = .error (.handlerNotFound e) := by
  have hget2 : (defaultGet m.event_handlers e).2 = [] := by
    rw [defaultGet_snd, hmiss]; rfl
  have hget1 : (defaultGet m.event_handlers e).1 = m.event_handlers ++ [(e, [])] :=
    defaultGet_fst_none m.event_handlers e hmiss
  have hq : m.hasEventHandler equal eh (some e)
      = (false, { m with event_handlers := m.event_handlers ++ [(e, [])] }) := by
    simp only [EventManager.hasEventHandler]
    rw [if_neg hne, hget2, hget1]
    rfl
  refine ⟨by rw [hq], by rw [hq], ?_⟩
  rw [hq]
  unfold EventManager.removeEventHandler
  rw [show ({ m with event_handlers := m.event_handlers ++ [(e, [])] }
      : EventManager H).event_handlers = m.event_handlers ++ [(e, [])] from rfl,
    lookupEvent_append_missing m.event_handlers e hmiss]
  rfl

theorem claim_C10_witness :
    ("my_event" ≠ ""
        ∧ lookupEvent ([("x", [5])] : List (String × List Nat)) "my_event" = none)
      ∧ (EventManager.hasEventHandler (fun a b => a == b)
            { event_handlers := [("x", [5])], last_fired_event := none } 5
            (some "my_event")).1 = false
      ∧ EventManager.removeEventHandler (fun a b => a == b)
          (EventManager.hasEventHandler (fun a b => a == b)
            { event_handlers := [("x", [5])], last_fired_event := none } 5
            (some "my_event")).2 "my_event" 5
          = .error (.handlerNotFound "my_event") := by
  have h := claim_C10_hasEventHandler_inserts (fun a b => a == b)
    { event_handlers := [("x", [5])], last_fired_event := none } 5 5 "my_event"
    (by decide) rfl
  exact ⟨⟨by decide, rfl⟩, h.1, h.2.2⟩

end Minevent
